import Mathlib

/-!
Verification of the KeyMaster core (`keymaster/key_password.py`):
the password derivation engine (`Password.calculate_password`) and the
sqlite-backed metadata store (`PasswordDB`).  The Python code is shallowly
embedded: machine words are `Nat` reduced modulo `2 ^ 64`, byte strings are
`List Nat`, fallible operations return `Option`/`Except`.
-/

namespace KeyMaster

/-! ### SHA-512 primitives

`hashlib.sha512` implements FIPS 180-4.  The round constants are the first
64 bits of the fractional parts of the cube roots of the first 80 primes;
the initial hash values come from the square roots of the first 8 primes.
We compute them from that definition with integer root extraction.
-/

/-- Integer binary search for the largest `m` with `m^3 ≤ n` (fuel-driven). -/
def cbrtAux : Nat → Nat → Nat → Nat → Nat
  | 0, _, lo, _ => lo
  | fuel + 1, n, lo, hi =>
    let mid := (lo + hi + 1) / 2
    if mid * mid * mid ≤ n then cbrtAux fuel n mid hi else cbrtAux fuel n lo (mid - 1)

/-- Integer cube root, valid for arguments below `2 ^ 210`. -/
def icbrt (n : Nat) : Nat := cbrtAux 100 n 0 (2 ^ 70)

/-- Integer binary search for the largest `m` with `m^2 ≤ n` (fuel-driven). -/
def sqrtAux : Nat → Nat → Nat → Nat → Nat
  | 0, _, lo, _ => lo
  | fuel + 1, n, lo, hi =>
    let mid := (lo + hi + 1) / 2
    if mid * mid ≤ n then sqrtAux fuel n mid hi else sqrtAux fuel n lo (mid - 1)

/-- Integer square root, valid for arguments below `2 ^ 140`. -/
def isqrt (n : Nat) : Nat := sqrtAux 100 n 0 (2 ^ 70)

/-- Primality by trial division (executable). -/
def isPrimeNat (n : Nat) : Bool :=
  decide (2 ≤ n) && (List.range n).all (fun m => decide (m < 2 ∨ n % m ≠ 0))

/-- The first `k` primes (the 80th prime is 409). -/
def firstPrimes (k : Nat) : List Nat := ((List.range 410).filter isPrimeNat).take k

/-- SHA-512 round constants: fractional cube roots of the first 80 primes. -/
def KConsts : List Nat := (firstPrimes 80).map (fun p => icbrt (p * 2 ^ 192) % 2 ^ 64)

/-- SHA-512 initial hash: fractional square roots of the first 8 primes. -/
def HInit : List Nat := (firstPrimes 8).map (fun p => isqrt (p * 2 ^ 128) % 2 ^ 64)

/-- 64-bit right rotation. -/
def rotr (n x : Nat) : Nat := ((x >>> n) ||| (x <<< (64 - n))) % 2 ^ 64

def bigSigma0 (x : Nat) : Nat := rotr 28 x ^^^ rotr 34 x ^^^ rotr 39 x

def bigSigma1 (x : Nat) : Nat := rotr 14 x ^^^ rotr 18 x ^^^ rotr 41 x

def smallSigma0 (x : Nat) : Nat := rotr 1 x ^^^ rotr 8 x ^^^ (x >>> 7)

def smallSigma1 (x : Nat) : Nat := rotr 19 x ^^^ rotr 61 x ^^^ (x >>> 6)

def chFn (e f g : Nat) : Nat := (e &&& f) ^^^ ((e ^^^ (2 ^ 64 - 1)) &&& g)

def majFn (a b c : Nat) : Nat := (a &&& b) ^^^ (a &&& c) ^^^ (b &&& c)

/-- Big-endian byte serialization of `n` in `w` bytes. -/
def toBytesBE (w n : Nat) : List Nat :=
  (List.range w).map (fun i => (n >>> (8 * (w - 1 - i))) % 256)

/-- FIPS 180-4 padding: `0x80`, zeros, then the 128-bit bit length. -/
def pad512 (msg : List Nat) : List Nat :=
  msg ++ [128] ++ List.replicate ((239 - msg.length % 128) % 128) 0
      ++ toBytesBE 16 (8 * msg.length)

/-- Parse a byte list into big-endian 64-bit words. -/
def wordsOf (bs : List Nat) : List Nat :=
  (List.range (bs.length / 8)).map
    (fun i => (List.range 8).foldl (fun acc j => acc * 256 + bs.getD (8 * i + j) 0) 0)

/-- Extend 16 message words to the 80-entry schedule. -/
def msgSchedule (w16 : List Nat) : List Nat :=
  (List.range 64).foldl (fun w _ =>
    let n := w.length
    w ++ [(smallSigma1 (w.getD (n - 2) 0) + w.getD (n - 7) 0
           + smallSigma0 (w.getD (n - 15) 0) + w.getD (n - 16) 0) % 2 ^ 64]) w16

/-- One SHA-512 compression round on the state `[a,b,c,d,e,f,g,h]`. -/
def round1 (st : List Nat) (kw : Nat × Nat) : List Nat :=
  match st with
  | [a, b, c, d, e, f, g, h] =>
    let t1 := (h + bigSigma1 e + chFn e f g + kw.1 + kw.2) % 2 ^ 64
    let t2 := (bigSigma0 a + majFn a b c) % 2 ^ 64
    [(t1 + t2) % 2 ^ 64, a, b, c, (d + t1) % 2 ^ 64, e, f, g]
  | _ => st

/-- Process one 128-byte block. -/
def compress (h : List Nat) (block : List Nat) : List Nat :=
  let w := msgSchedule (wordsOf block)
  let st := (KConsts.zip w).foldl round1 h
  (h.zip st).map (fun p => (p.1 + p.2) % 2 ^ 64)

/-- SHA-512 of a byte list, as the 64-byte digest. -/
def sha512 (msg : List Nat) : List Nat :=
  let padded := pad512 msg
  let hFinal := (List.range (padded.length / 128)).foldl
    (fun h i => compress h ((padded.drop (128 * i)).take 128)) HInit
  hFinal.foldr (fun x acc => toBytesBE 8 x ++ acc) []

/-! ### Base-32 / base-64 encodings (`base64.b32encode`, `base64.b64encode`) -/

def listJoin (ls : List (List α)) : List α := ls.foldr (fun a b => a ++ b) []

def b32alphabet : List Char := "ABCDEFGHIJKLMNOPQRSTUVWXYZ234567".toList

def b64alphabet : List Char :=
  "ABCDEFGHIJKLMNOPQRSTUVWXYZabcdefghijklmnopqrstuvwxyz0123456789+/".toList

/-- Big-endian value of a byte chunk. -/
def chunkVal (bs : List Nat) : Nat := bs.foldl (fun acc b => acc * 256 + b) 0

/-- RFC 4648 base-32 with `=` padding, as Python `base64.b32encode`. -/
def b32encode (bs : List Nat) : List Char :=
  let r := bs.length % 5
  let padded := bs ++ List.replicate ((5 - r) % 5) 0
  let raw := listJoin ((List.range (padded.length / 5)).map (fun i =>
    let v := chunkVal ((padded.drop (5 * i)).take 5)
    (List.range 8).map (fun j => b32alphabet.getD ((v >>> (5 * (7 - j))) % 32) 'A')))
  let npad := if r = 1 then 6 else if r = 2 then 4 else if r = 3 then 3
              else if r = 4 then 1 else 0
  raw.take (raw.length - npad) ++ List.replicate npad '='

/-- RFC 4648 base-64 with `=` padding, as Python `base64.b64encode`. -/
def b64encode (bs : List Nat) : List Char :=
  let r := bs.length % 3
  let padded := bs ++ List.replicate ((3 - r) % 3) 0
  let raw := listJoin ((List.range (padded.length / 3)).map (fun i =>
    let v := chunkVal ((padded.drop (3 * i)).take 3)
    (List.range 4).map (fun j => b64alphabet.getD ((v >>> (6 * (3 - j))) % 64) 'A')))
  raw.take (raw.length - (3 - r) % 3) ++ List.replicate ((3 - r) % 3) '='

/-! ### String helpers used by `calculate_password` -/

/-- UTF-8 encoding of one character (`str.encode("utf-8")`). -/
def utf8Char (c : Char) : List Nat :=
  let n := c.toNat
  if n < 128 then [n]
  else if n < 2048 then [192 + n / 64, 128 + n % 64]
  else if n < 65536 then [224 + n / 4096, 128 + n / 64 % 64, 128 + n % 64]
  else [240 + n / 262144, 128 + n / 4096 % 64, 128 + n / 64 % 64, 128 + n % 64]

def utf8Bytes (s : String) : List Nat := s.toList.foldr (fun c acc => utf8Char c ++ acc) []

/-- Python slice endpoint: negative indices count from the end, then clamp. -/
def sliceIdx (n : Nat) (i : Int) : Nat :=
  if i < 0 then ((n : Int) + i).toNat else min i.toNat n

/-- Python `l[i:j]`. -/
def pySlice (l : List α) (i j : Int) : List α :=
  (l.take (sliceIdx l.length j)).drop (sliceIdx l.length i)

/-- ASCII lower-casing of one byte/char (`bytes.lower`). -/
def lowerChar (c : Char) : Char :=
  if 'A' ≤ c ∧ c ≤ 'Z' then Char.ofNat (c.toNat + 32) else c

/-- Python `s.replace(a, b, 1)`: replace the first occurrence of `a` only. -/
def replaceFirst (a b : Char) : List Char → List Char
  | [] => []
  | x :: xs => if x = a then b :: xs else x :: replaceFirst a b xs

/-- The "change a few letters" line:
`s.replace('b','B',1).replace('d','D',1).replace('z','Z',1)`. -/
def camelize (l : List Char) : List Char :=
  replaceFirst 'z' 'Z' (replaceFirst 'd' 'D' (replaceFirst 'b' 'B' l))

/-- `str.maketrans("acers", "@(*^$")` applied to one character. -/
def translateChar (c : Char) : Char :=
  if c = 'a' then '@' else if c = 'c' then '(' else if c = 'e' then '*'
  else if c = 'r' then '^' else if c = 's' then '$' else c

/-! ### `Password` and `calculate_password` -/

structure Password where
  nickname : String := ""
  username : String := ""
  hostname : String := ""
  special_char : Bool := false
  base : Nat := 32
  iteration : Nat := 1
  hint : String := ""
  start : Int := 0
  finish : Int := 15
deriving DecidableEq

/-- Encoding selection: the two `if` statements binding `encode_fn`; for any
other base no encoding function is bound and the call fails (`NameError`). -/
def encodeFn (base : Nat) : Option (List Nat → List Char) :=
  if base = 32 then some b32encode else if base = 64 then some b64encode else none

/-- `Password.calculate_password`.  `none` models the `NameError` raised when
`encode_fn` was never assigned. -/
def Password.calculate_password (self : Password) (user_proto_pw : String) : Option String :=
  let proto_pw := user_proto_pw ++ self.username ++ "@" ++ self.hostname
      ++ toString self.iteration
  match encodeFn self.base with
  | none => none
  | some encode_fn =>
    let password_str := encode_fn (sha512 (utf8Bytes proto_pw))
    let sliced := (pySlice password_str self.start (self.finish + 1)).map lowerChar
    let replaced := camelize sliced
    some (String.mk (if self.special_char then replaced.map translateChar else replaced))

/-! ### The entry store (`PasswordDB`)

The sqlite connection is modelled by an `isOpen` flag plus the table rows in
rowid (insertion) order.  `sqlite3` raises `ProgrammingError` when a cursor
or connection method is used after `close()`; errors are an `Except` channel.
`NotFound` is in the error type so that spec-level claims about it can be
stated, but no store operation below ever produces it.
-/

inductive DBError where
  | notFound
  | programmingError
deriving DecidableEq

structure PasswordDB where
  rows : List Password
  isOpen : Bool
deriving DecidableEq

/-- One step of the Python dict comprehension
`{row[0]: Password(*row) for row in rows}`: a later binding of the same key
overwrites an earlier one. -/
def dictStep (m : String → Option Password) (r : Password) : String → Option Password :=
  fun n => if n = r.nickname then some r else m n

/-- The mapping built by the dict comprehension, iterating rows in order. -/
def dictOfRows (rows : List Password) : String → Option Password :=
  rows.foldl dictStep (fun _ => none)

/-- `get_list_of_nicks`: `sorted([pw[0] for pw in ...])` over all rows
(lexicographic order on strings, as Python `sorted`). -/
def PasswordDB.get_list_of_nicks (db : PasswordDB) : Except DBError (List String) :=
  if db.isOpen then
    .ok (List.insertionSort (· ≤ ·) (db.rows.map Password.nickname))
  else .error .programmingError

/-- `get_all_password_objects`: the nickname-keyed dictionary of all rows. -/
def PasswordDB.get_all_password_objects (db : PasswordDB) :
    Except DBError (String → Option Password) :=
  if db.isOpen then .ok (dictOfRows db.rows) else .error .programmingError

/-- `_run_create`: `insert into passwords values(...)` appends a row; the
schema declares no uniqueness constraint, so the insert always succeeds. -/
def PasswordDB.runCreate (db : PasswordDB) (pw_obj : Password) : Except DBError PasswordDB :=
  if db.isOpen then .ok { db with rows := db.rows ++ [pw_obj] } else .error .programmingError

/-- `create_new_password`: `_run_create` then `commit` (durability only). -/
def PasswordDB.create_new_password (db : PasswordDB) (pw_obj : Password) :
    Except DBError PasswordDB :=
  db.runCreate pw_obj

/-- `_run_delete`: `delete from passwords where nickname = ?`; deleting zero
rows is a silent success in sqlite. -/
def PasswordDB.runDelete (db : PasswordDB) (nickname : String) : Except DBError PasswordDB :=
  if db.isOpen then .ok { db with rows := db.rows.filter (fun r => r.nickname != nickname) }
  else .error .programmingError

/-- `delete_password` on a nickname (a `Password` argument is first projected
to its nickname in the source): `_run_delete` then `commit`. -/
def PasswordDB.delete_password (db : PasswordDB) (nickname : String) :
    Except DBError PasswordDB :=
  db.runDelete nickname

/-- `update_old_password`: delete the old nickname, then insert the new row. -/
def PasswordDB.update_old_password (db : PasswordDB) (orig_nick : String) (pw_obj : Password) :
    Except DBError PasswordDB :=
  (db.runDelete orig_nick).bind (fun db' => db'.runCreate pw_obj)

/-- `close_db`: `conn.commit()` then `conn.close()`.  The commit raises
`ProgrammingError` if the connection is already closed. -/
def PasswordDB.close_db (db : PasswordDB) : Except DBError PasswordDB :=
  if db.isOpen then .ok { db with isOpen := false } else .error .programmingError

/-- A freshly created empty store (`PasswordDB(":memory:", True)`). -/
def dbEmpty : PasswordDB := ⟨[], true⟩

/-- Sample entry used to instantiate universally quantified store theorems. -/
def pwAlice : Password := { nickname := "alice", username := "u", hostname := "h" }

/-- A second sample entry with a different nickname. -/
def pwBob : Password := { nickname := "bob", username := "u2", hostname := "h2" }

/-- A duplicate of `pwAlice`'s nickname with different fields. -/
def pwAlice2 : Password := { nickname := "alice", username := "other", hostname := "h9" }

/-! ### Lemmas about the dict comprehension -/

theorem foldl_dictStep_of_not_mem (rows : List Password) (m : String → Option Password)
    (n : String) (h : ∀ r ∈ rows, r.nickname ≠ n) :
    (rows.foldl dictStep m) n = m n := by
  induction rows generalizing m with
  | nil => rfl
  | cons r rs ih =>
    rw [List.foldl_cons, ih _ (fun x hx => h x (List.mem_cons_of_mem r hx))]
    have hrn : r.nickname ≠ n := h r (List.mem_cons_self r rs)
    exact if_neg (fun hc => hrn hc.symm)

theorem dictOfRows_append (rows : List Password) (e : Password) :
    dictOfRows (rows ++ [e]) = dictStep (dictOfRows rows) e := by
  simp [dictOfRows, List.foldl_append]

theorem dictOfRows_filter_ne (rows : List Password) (n : String) :
    dictOfRows (rows.filter (fun r => r.nickname != n)) n = none := by
  apply foldl_dictStep_of_not_mem
  intro r hr
  have := (List.mem_filter.mp hr).2
  simpa using this

/-! ### Claim theorems about the store -/

/-- C5: `create(e)` followed by `load_all()` yields a mapping containing `e`
under the key `e.nickname`, and `delete(n)` followed by `load_all()` yields a
mapping without the key `n`. -/
theorem create_then_load_contains_and_delete_then_load_omits
    (db db1 db2 : PasswordDB) (m1 m2 : String → Option Password)
    (e : Password) (n : String)
    (hcr : db.create_new_password e = .ok db1)
    (hm1 : db1.get_all_password_objects = .ok m1)
    (hdel : db.delete_password n = .ok db2)
    (hm2 : db2.get_all_password_objects = .ok m2) :
    m1 e.nickname = some e ∧ m2 n = none := by
  cases hopen : db.isOpen
  · simp [PasswordDB.create_new_password, PasswordDB.runCreate, hopen] at hcr
  · have h1 : db1 = { db with rows := db.rows ++ [e] } := by
      simpa [PasswordDB.create_new_password, PasswordDB.runCreate, hopen, eq_comm] using hcr
    have h2 : db2 = { db with rows := db.rows.filter (fun r => r.nickname != n) } := by
      simpa [PasswordDB.delete_password, PasswordDB.runDelete, hopen, eq_comm] using hdel
    subst h1; subst h2
    have hm1' : m1 = dictOfRows (db.rows ++ [e]) := by
      simpa [PasswordDB.get_all_password_objects, hopen, eq_comm] using hm1
    have hm2' : m2 = dictOfRows (db.rows.filter (fun r => r.nickname != n)) := by
      simpa [PasswordDB.get_all_password_objects, hopen, eq_comm] using hm2
    subst hm1'; subst hm2'
    refine ⟨?_, dictOfRows_filter_ne _ _⟩
    rw [dictOfRows_append]
    simp [dictStep]

/-- C5 witness at a concrete store. -/
theorem create_then_load_witness :
    (PasswordDB.mk [pwAlice] true).create_new_password pwBob
        = .ok (PasswordDB.mk [pwAlice, pwBob] true)
    ∧ (PasswordDB.mk [pwAlice, pwBob] true).get_all_password_objects
        = .ok (dictOfRows [pwAlice, pwBob])
    ∧ (PasswordDB.mk [pwAlice] true).delete_password "alice"
        = .ok (PasswordDB.mk [] true)
    ∧ (PasswordDB.mk [] true).get_all_password_objects = .ok (dictOfRows [])
    ∧ (dictOfRows [pwAlice, pwBob] pwBob.nickname = some pwBob
        ∧ dictOfRows [] "alice" = none) :=
  ⟨rfl, rfl, rfl, rfl,
    create_then_load_contains_and_delete_then_load_omits
      (PasswordDB.mk [pwAlice] true) (PasswordDB.mk [pwAlice, pwBob] true)
      (PasswordDB.mk [] true) (dictOfRows [pwAlice, pwBob]) (dictOfRows [])
      pwBob "alice" rfl rfl rfl rfl⟩

/-- C6: `update(old_nick, e2)` with `e2.nickname ≠ old_nick` removes every row
keyed `old_nick` and appends `e2`; afterwards nothing is found under
`old_nick` and `e2` is found under `e2.nickname`. -/
theorem update_removes_old_nick_and_adds_new
    (db db' : PasswordDB) (m : String → Option Password)
    (orig_nick : String) (e2 : Password)
    (hmem : orig_nick ∈ db.rows.map Password.nickname)
    (hne : e2.nickname ≠ orig_nick)
    (hupd : db.update_old_password orig_nick e2 = .ok db')
    (hm : db'.get_all_password_objects = .ok m) :
    db'.rows = db.rows.filter (fun r => r.nickname != orig_nick) ++ [e2]
    ∧ m orig_nick = none ∧ m e2.nickname = some e2 := by
  cases hopen : db.isOpen
  · simp [PasswordDB.update_old_password, PasswordDB.runDelete, hopen, Except.bind] at hupd
  · have h1 : db' = { db with rows := db.rows.filter (fun r => r.nickname != orig_nick) ++ [e2] } := by
      simpa [PasswordDB.update_old_password, PasswordDB.runDelete, PasswordDB.runCreate,
        hopen, Except.bind, eq_comm] using hupd
    subst h1
    have hm' : m = dictOfRows (db.rows.filter (fun r => r.nickname != orig_nick) ++ [e2]) := by
      simpa [PasswordDB.get_all_password_objects, hopen, eq_comm] using hm
    subst hm'
    refine ⟨rfl, ?_, ?_⟩
    · rw [dictOfRows_append]
      have : dictStep (dictOfRows (db.rows.filter (fun r => r.nickname != orig_nick))) e2 orig_nick
          = dictOfRows (db.rows.filter (fun r => r.nickname != orig_nick)) orig_nick :=
        if_neg (fun hc => hne hc.symm)
      rw [this]
      exact dictOfRows_filter_ne _ _
    · rw [dictOfRows_append]
      simp [dictStep]

/-- C6 witness at a concrete store. -/
theorem update_witness :
    ("alice" ∈ (PasswordDB.mk [pwAlice] true).rows.map Password.nickname)
    ∧ pwBob.nickname ≠ "alice"
    ∧ (PasswordDB.mk [pwAlice] true).update_old_password "alice" pwBob
        = .ok (PasswordDB.mk [pwBob] true)
    ∧ (PasswordDB.mk [pwBob] true).get_all_password_objects = .ok (dictOfRows [pwBob])
    ∧ ((PasswordDB.mk [pwBob] true).rows
          = (PasswordDB.mk [pwAlice] true).rows.filter (fun r => r.nickname != "alice") ++ [pwBob]
        ∧ dictOfRows [pwBob] "alice" = none
        ∧ dictOfRows [pwBob] pwBob.nickname = some pwBob) :=
  ⟨by decide, by decide, rfl, rfl,
    update_removes_old_nick_and_adds_new (PasswordDB.mk [pwAlice] true)
      (PasswordDB.mk [pwBob] true) (dictOfRows [pwBob]) "alice" pwBob
      (by decide) (by decide) rfl rfl⟩

/-- C8 counterexample: deleting an absent nickname does not surface
`NotFound`; it is a silent no-op returning the unchanged store. -/
theorem delete_absent_counterexample :
    dbEmpty.delete_password "missing" = .ok dbEmpty
    ∧ dbEmpty.delete_password "missing" ≠ .error DBError.notFound := by
  exact ⟨rfl, fun h => Except.noConfusion h⟩

/-- C8 amended: deleting an absent nickname removes no row and completes
successfully, leaving the store unchanged; no error is surfaced. -/
theorem delete_absent_silent_noop (db : PasswordDB) (n : String)
    (hopen : db.isOpen = true) (habs : n ∉ db.rows.map Password.nickname) :
    db.delete_password n = .ok db := by
  have hfix : db.rows.filter (fun r => r.nickname != n) = db.rows := by
    apply List.filter_eq_self.mpr
    intro r hr
    have : r.nickname ≠ n := fun hc => habs (hc ▸ List.mem_map_of_mem Password.nickname hr)
    simpa using this
  simp only [PasswordDB.delete_password, PasswordDB.runDelete, hopen, hfix, if_true]
  rw [← hopen]

/-- C8 amended witness at a concrete store. -/
theorem delete_absent_witness :
    (PasswordDB.mk [pwAlice] true).isOpen = true
    ∧ ("missing" ∉ (PasswordDB.mk [pwAlice] true).rows.map Password.nickname)
    ∧ (PasswordDB.mk [pwAlice] true).delete_password "missing"
        = .ok (PasswordDB.mk [pwAlice] true) :=
  ⟨rfl, by decide,
    delete_absent_silent_noop (PasswordDB.mk [pwAlice] true) "missing" rfl (by decide)⟩

/-- C9 counterexample: after a successful close, a second `close_db` fails
(`conn.commit()` on a closed connection), so close is not idempotent. -/
theorem close_twice_counterexample :
    dbEmpty.close_db = .ok (PasswordDB.mk [] false)
    ∧ (PasswordDB.mk [] false).close_db = .error DBError.programmingError :=
  ⟨rfl, rfl⟩

/-- C9 amended: a second `close_db` after a successful close always raises
`ProgrammingError` (the commit step operates on a closed connection). -/
theorem close_second_call_errors (db db' : PasswordDB)
    (h : db.close_db = .ok db') :
    db'.close_db = .error DBError.programmingError := by
  cases hopen : db.isOpen
  · simp [PasswordDB.close_db, hopen] at h
  · have : db' = { db with isOpen := false } := by
      simpa [PasswordDB.close_db, hopen, eq_comm] using h
    subst this
    simp [PasswordDB.close_db]

/-- C9 amended witness at a concrete store. -/
theorem close_second_call_witness :
    dbEmpty.close_db = .ok (PasswordDB.mk [] false)
    ∧ (PasswordDB.mk [] false).close_db = .error DBError.programmingError :=
  ⟨rfl, close_second_call_errors dbEmpty (PasswordDB.mk [] false) rfl⟩

/-- C10: creating an entry whose nickname already keys a row succeeds and
appends a second row with that nickname (no uniqueness constraint); the
mapping from `load_all` then holds exactly the last such row, which shadows
the earlier one. -/
theorem create_duplicate_nickname_shadows
    (db db' : PasswordDB) (m : String → Option Password) (e : Password)
    (hdup : e.nickname ∈ db.rows.map Password.nickname)
    (hcr : db.create_new_password e = .ok db')
    (hm : db'.get_all_password_objects = .ok m) :
    db'.rows = db.rows ++ [e]
    ∧ 2 ≤ (db'.rows.filter (fun r => r.nickname == e.nickname)).length
    ∧ (db'.rows.filter (fun r => r.nickname == e.nickname)).getLast? = some e
    ∧ m e.nickname = some e := by
  cases hopen : db.isOpen
  · simp [PasswordDB.create_new_password, PasswordDB.runCreate, hopen] at hcr
  · have h1 : db' = { db with rows := db.rows ++ [e] } := by
      simpa [PasswordDB.create_new_password, PasswordDB.runCreate, hopen, eq_comm] using hcr
    subst h1
    have hm' : m = dictOfRows (db.rows ++ [e]) := by
      simpa [PasswordDB.get_all_password_objects, hopen, eq_comm] using hm
    subst hm'
    obtain ⟨r, hr, hrn⟩ := List.mem_map.mp hdup
    have hrf : r ∈ db.rows.filter (fun x => x.nickname == e.nickname) :=
      List.mem_filter.mpr ⟨hr, by simp [hrn]⟩
    have hpos : 0 < (db.rows.filter (fun x => x.nickname == e.nickname)).length :=
      List.length_pos.mpr (List.ne_nil_of_mem hrf)
    refine ⟨rfl, ?_, ?_, ?_⟩
    · rw [List.filter_append]
      simp only [List.filter_cons, List.filter_nil, beq_self_eq_true, if_true,
        List.length_append]
      simp only [List.length_cons, List.length_nil]
      omega
    · rw [List.filter_append]
      simp [List.getLast?_concat]
    · rw [dictOfRows_append]
      simp [dictStep]

/-- C10 witness at a concrete store with a duplicate nickname. -/
theorem create_duplicate_witness :
    (pwAlice2.nickname ∈ (PasswordDB.mk [pwAlice] true).rows.map Password.nickname)
    ∧ (PasswordDB.mk [pwAlice] true).create_new_password pwAlice2
        = .ok (PasswordDB.mk [pwAlice, pwAlice2] true)
    ∧ (PasswordDB.mk [pwAlice, pwAlice2] true).get_all_password_objects
        = .ok (dictOfRows [pwAlice, pwAlice2])
    ∧ ((PasswordDB.mk [pwAlice, pwAlice2] true).rows
          = (PasswordDB.mk [pwAlice] true).rows ++ [pwAlice2]
        ∧ 2 ≤ ((PasswordDB.mk [pwAlice, pwAlice2] true).rows.filter
            (fun r => r.nickname == pwAlice2.nickname)).length
        ∧ ((PasswordDB.mk [pwAlice, pwAlice2] true).rows.filter
            (fun r => r.nickname == pwAlice2.nickname)).getLast? = some pwAlice2
        ∧ dictOfRows [pwAlice, pwAlice2] pwAlice2.nickname = some pwAlice2) :=
  ⟨by decide, rfl, rfl,
    create_duplicate_nickname_shadows (PasswordDB.mk [pwAlice] true)
      (PasswordDB.mk [pwAlice, pwAlice2] true) (dictOfRows [pwAlice, pwAlice2])
      pwAlice2 (by decide) rfl rfl⟩

/-- C7: `list_nicknames` returns exactly the stored nicknames in ascending
lexical order, independently of the insertion order of the rows. -/
theorem list_nicks_sorted_and_order_independent
    (db1 db2 : PasswordDB) (l1 l2 : List String)
    (hperm : List.Perm (db1.rows.map Password.nickname) (db2.rows.map Password.nickname))
    (h1 : db1.get_list_of_nicks = .ok l1)
    (h2 : db2.get_list_of_nicks = .ok l2) :
    l1.Sorted (· ≤ ·) ∧ List.Perm l1 (db1.rows.map Password.nickname) ∧ l1 = l2 := by
  cases hopen1 : db1.isOpen
  · simp [PasswordDB.get_list_of_nicks, hopen1] at h1
  · cases hopen2 : db2.isOpen
    · simp [PasswordDB.get_list_of_nicks, hopen2] at h2
    · have e1 : l1 = List.insertionSort (· ≤ ·) (db1.rows.map Password.nickname) := by
        simpa [PasswordDB.get_list_of_nicks, hopen1, eq_comm] using h1
      have e2 : l2 = List.insertionSort (· ≤ ·) (db2.rows.map Password.nickname) := by
        simpa [PasswordDB.get_list_of_nicks, hopen2, eq_comm] using h2
      subst e1; subst e2
      refine ⟨List.sorted_insertionSort _ _, List.perm_insertionSort _ _, ?_⟩
      exact List.eq_of_perm_of_sorted
        ((List.perm_insertionSort _ _).trans
          (hperm.trans (List.perm_insertionSort _ _).symm))
        (List.sorted_insertionSort _ _) (List.sorted_insertionSort _ _)

/-- C7 witness: two stores holding the same rows in opposite orders. -/
theorem list_nicks_witness :
    (List.Perm ((PasswordDB.mk [pwBob, pwAlice] true).rows.map Password.nickname)
        ((PasswordDB.mk [pwAlice, pwBob] true).rows.map Password.nickname))
    ∧ (PasswordDB.mk [pwBob, pwAlice] true).get_list_of_nicks = .ok ["alice", "bob"]
    ∧ (PasswordDB.mk [pwAlice, pwBob] true).get_list_of_nicks = .ok ["alice", "bob"]
    ∧ (List.Sorted (· ≤ ·) ["alice", "bob"]
        ∧ List.Perm ["alice", "bob"]
            ((PasswordDB.mk [pwBob, pwAlice] true).rows.map Password.nickname)
        ∧ ["alice", "bob"] = ["alice", "bob"]) :=
  have h1 : (PasswordDB.mk [pwBob, pwAlice] true).get_list_of_nicks = .ok ["alice", "bob"] := by
    have hba : ¬ (("bob" : String) ≤ "alice") := by
      rw [String.le_iff_toList_le]; decide
    simp [PasswordDB.get_list_of_nicks, pwAlice, pwBob, List.insertionSort,
      List.orderedInsert, hba]
  have h2 : (PasswordDB.mk [pwAlice, pwBob] true).get_list_of_nicks = .ok ["alice", "bob"] := by
    have hab : (("alice" : String) ≤ "bob") := by
      rw [String.le_iff_toList_le]; decide
    simp [PasswordDB.get_list_of_nicks, pwAlice, pwBob, List.insertionSort,
      List.orderedInsert, hab]
  ⟨by decide, h1, h2,
    list_nicks_sorted_and_order_independent
      (PasswordDB.mk [pwBob, pwAlice] true) (PasswordDB.mk [pwAlice, pwBob] true)
      ["alice", "bob"] ["alice", "bob"] (by decide) h1 h2⟩

/-! ### Claim theorems about the derivation engine -/

/-- C2: for any proto-password and any entry whose base is 32 or 64,
`calculate_password` produces a string; the no-encoding-selected failure
(`NameError`) is unreachable on the documented domain. -/
theorem derive_total_on_documented_bases (p : Password) (proto : String)
    (hbase : p.base = 32 ∨ p.base = 64) :
    ∃ s, p.calculate_password proto = some s := by
  rcases hbase with h | h
  · have hE : encodeFn p.base = some b32encode := by rw [h]; rfl
    simp [Password.calculate_password, hE]
  · have hE : encodeFn p.base = some b64encode := by rw [h]; rfl
    simp [Password.calculate_password, hE]

/-- C2 witness at a base-32 entry. -/
theorem derive_total_witness :
    (({ username := "user", hostname := "host" } : Password).base = 32
      ∨ ({ username := "user", hostname := "host" } : Password).base = 64)
    ∧ ∃ s, ({ username := "user", hostname := "host" } : Password).calculate_password ""
        = some s :=
  ⟨Or.inl rfl,
    derive_total_on_documented_bases { username := "user", hostname := "host" } ""
      (Or.inl rfl)⟩

/-- C3: with `0 ≤ start ≤ end`, the window taken from the encoded text has
length `end - start + 1` clamped to the available text: empty when `start`
is at or past the text length, else truncated at the text length. -/
theorem slice_window_length (l : List Char) (s e : Int)
    (h0 : 0 ≤ s) (hse : s ≤ e) :
    (pySlice l s (e + 1)).length =
      if l.length ≤ s.toNat then 0
      else min (e.toNat - s.toNat + 1) (l.length - s.toNat) := by
  have hs : ¬ s < 0 := by omega
  have he : ¬ e + 1 < 0 := by omega
  simp only [pySlice, sliceIdx, hs, he, if_false, List.length_drop, List.length_take]
  split_ifs with h <;> omega

/-- C3 witness: a window reaching past the end of a 3-character text. -/
theorem slice_window_witness :
    (0 : Int) ≤ 1 ∧ (1 : Int) ≤ 5
    ∧ (pySlice ("abc".toList) 1 (5 + 1)).length =
        (if ("abc".toList).length ≤ (1 : Int).toNat then 0
         else min ((5 : Int).toNat - (1 : Int).toNat + 1)
           (("abc".toList).length - (1 : Int).toNat)) :=
  ⟨by decide, by decide, slice_window_length ("abc".toList) 1 5 (by decide) (by decide)⟩

/-! ### Lemmas about `replaceFirst` -/

theorem length_replaceFirst (a b : Char) (l : List Char) :
    (replaceFirst a b l).length = l.length := by
  induction l with
  | nil => rfl
  | cons x xs ih =>
    simp only [replaceFirst]
    split <;> simp [ih]

theorem getD_replaceFirst (a b d : Char) (l : List Char) (i : Nat) (h : i < l.length) :
    (replaceFirst a b l).getD i d =
      if i = l.findIdx (fun c => c == a) then b else l.getD i d := by
  induction l generalizing i with
  | nil => exact absurd h (by simp)
  | cons x xs ih =>
    by_cases hx : x = a
    · subst hx
      simp only [replaceFirst, if_pos rfl, List.findIdx_cons, beq_self_eq_true, cond_true]
      cases i with
      | zero => simp
      | succ j => simp
    · have hbe : (x == a) = false := beq_eq_false_iff_ne.mpr hx
      simp only [replaceFirst, if_neg hx, List.findIdx_cons, hbe, cond_false]
      cases i with
      | zero => simp
      | succ j =>
        have hj : j < xs.length := by simpa using h
        simp only [List.getD_cons_succ]
        rw [ih j hj]
        by_cases hj2 : j = xs.findIdx (fun c => c == a)
        · rw [if_pos hj2, if_pos (by omega)]
        · rw [if_neg hj2, if_neg (by omega)]

theorem findIdx_replaceFirst (a b c : Char) (l : List Char) (hca : c ≠ a) (hcb : c ≠ b) :
    (replaceFirst a b l).findIdx (fun x => x == c) = l.findIdx (fun x => x == c) := by
  induction l with
  | nil => rfl
  | cons x xs ih =>
    by_cases hx : x = a
    · subst hx
      have h1 : (b == c) = false := beq_eq_false_iff_ne.mpr (Ne.symm hcb)
      have h2 : (x == c) = false := beq_eq_false_iff_ne.mpr (Ne.symm hca)
      simp [replaceFirst, List.findIdx_cons, h1, h2]
    · simp only [replaceFirst, if_neg hx, List.findIdx_cons]
      cases hb : (x == c) <;> simp [hb, ih]

theorem getD_eq_of_eq_findIdx (c d : Char) (l : List Char) (i : Nat) (hlt : i < l.length)
    (heq : i = l.findIdx (fun x => x == c)) : l.getD i d = c := by
  induction l generalizing i with
  | nil => exact absurd hlt (by simp)
  | cons x xs ih =>
    rw [List.findIdx_cons] at heq
    cases hb : (x == c)
    · rw [hb, cond_false] at heq
      cases i with
      | zero => exact absurd heq (by omega)
      | succ j =>
        have hj : j < xs.length := by simpa using hlt
        simpa using ih j hj (by omega)
    · rw [hb, cond_true] at heq
      subst heq
      simpa using eq_of_beq hb

/-- C4: the casing step uppercases, for each of `b`, `d`, `z`, the first
occurrence of that letter in the original substring, in the fixed order `b`,
`d`, `z`, each replacement independent of the previous ones: position `i` of
the result holds `B`/`D`/`Z` exactly when `i` is the first index of
`b`/`d`/`z` in the input, and the input character otherwise. -/
theorem camelize_uppercases_first_occurrences_independently
    (l : List Char) (i : Nat) (h : i < l.length) :
    (camelize l).length = l.length
    ∧ (camelize l).getD i 'a' =
        (if i = l.findIdx (fun c => c == 'b') then 'B'
         else if i = l.findIdx (fun c => c == 'd') then 'D'
         else if i = l.findIdx (fun c => c == 'z') then 'Z'
         else l.getD i 'a') := by
  have h2 : i < (replaceFirst 'b' 'B' l).length := by simpa [length_replaceFirst] using h
  have h1 : i < (replaceFirst 'd' 'D' (replaceFirst 'b' 'B' l)).length := by
    simpa [length_replaceFirst] using h
  refine ⟨by simp [camelize, length_replaceFirst], ?_⟩
  rw [camelize, getD_replaceFirst _ _ _ _ _ h1,
    findIdx_replaceFirst 'd' 'D' 'z' _ (by decide) (by decide),
    findIdx_replaceFirst 'b' 'B' 'z' _ (by decide) (by decide),
    getD_replaceFirst _ _ _ _ _ h2,
    findIdx_replaceFirst 'b' 'B' 'd' _ (by decide) (by decide),
    getD_replaceFirst _ _ _ _ _ h]
  have hbd : i = l.findIdx (fun c => c == 'b') → i = l.findIdx (fun c => c == 'd') → False := by
    intro e1 e2
    have g1 := getD_eq_of_eq_findIdx 'b' 'a' l i h e1
    have g2 := getD_eq_of_eq_findIdx 'd' 'a' l i h e2
    rw [g1] at g2
    exact absurd g2 (by decide)
  have hbz : i = l.findIdx (fun c => c == 'b') → i = l.findIdx (fun c => c == 'z') → False := by
    intro e1 e2
    have g1 := getD_eq_of_eq_findIdx 'b' 'a' l i h e1
    have g2 := getD_eq_of_eq_findIdx 'z' 'a' l i h e2
    rw [g1] at g2
    exact absurd g2 (by decide)
  have hdz : i = l.findIdx (fun c => c == 'd') → i = l.findIdx (fun c => c == 'z') → False := by
    intro e1 e2
    have g1 := getD_eq_of_eq_findIdx 'd' 'a' l i h e1
    have g2 := getD_eq_of_eq_findIdx 'z' 'a' l i h e2
    rw [g1] at g2
    exact absurd g2 (by decide)
  by_cases hb : i = l.findIdx (fun c => c == 'b')
  · by_cases hd : i = l.findIdx (fun c => c == 'd')
    · exact (hbd hb hd).elim
    · by_cases hz : i = l.findIdx (fun c => c == 'z')
      · exact (hbz hb hz).elim
      · rw [if_neg hz, if_neg hd, if_pos hb, if_pos hb]
  · by_cases hd : i = l.findIdx (fun c => c == 'd')
    · by_cases hz : i = l.findIdx (fun c => c == 'z')
      · exact (hdz hd hz).elim
      · rw [if_neg hz, if_pos hd, if_neg hb, if_pos hd]
    · by_cases hz : i = l.findIdx (fun c => c == 'z')
      · rw [if_pos hz, if_neg hb, if_neg hd, if_pos hz]
      · rw [if_neg hz, if_neg hd, if_neg hb, if_neg hb, if_neg hd, if_neg hz]

/-- C4 witness on the concrete substring `"bdzb"` at position 0. -/
theorem camelize_witness :
    0 < ("bdzb".toList).length
    ∧ ((camelize ("bdzb".toList)).length = ("bdzb".toList).length
        ∧ (camelize ("bdzb".toList)).getD 0 'a' =
            (if 0 = ("bdzb".toList).findIdx (fun c => c == 'b') then 'B'
             else if 0 = ("bdzb".toList).findIdx (fun c => c == 'd') then 'D'
             else if 0 = ("bdzb".toList).findIdx (fun c => c == 'z') then 'Z'
             else ("bdzb".toList).getD 0 'a')) :=
  ⟨by decide,
    camelize_uppercases_first_occurrences_independently ("bdzb".toList) 0 (by decide)⟩

set_option maxRecDepth 1000000 in
/-- C1: the two concrete scenarios from the test suite: base 32 without
special characters derives `"5wjDnwdyj4uxZd6g"`, and base 64 with special
characters and iteration 2 derives `"$ifZ6kv@p9xmyf(1"`, both for
username `"user"`, hostname `"host"`, window `[0, 15]`, empty
proto-password. -/
theorem derive_concrete_scenarios :
    Password.calculate_password
        { nickname := "nick", username := "user", hostname := "host",
          special_char := false, base := 32, iteration := 1, hint := "hint",
          start := 0, finish := 15 } ""
      = some "5wjDnwdyj4uxZd6g"
    ∧ Password.calculate_password
        { nickname := "nick", username := "user", hostname := "host",
          special_char := true, base := 64, iteration := 2, hint := "hint",
          start := 0, finish := 15 } ""
      = some "$ifZ6kv@p9xmyf(1" := by
  constructor <;> decide

end KeyMaster
